import Mathlib

/-!
Verification of the `koishi-plugin-emojis` core: a shallow embedding of
`src/utils.ts` (codepoint encoder and in-memory metadata store) and
`src/index.ts` (metadata cache controller, loader and the `emoji` command
action), together with proofs of the specification claims.

JavaScript strings are modelled as their sequence of UTF-16 code units
(`List Nat`, each unit `< 0x10000`).  Fallible JS code is modelled with
`Except`/`Option`; the file system and the single HTTP fetch of one refresh
invocation are modelled as explicit state plus an event trace.
-/

set_option maxRecDepth 4000

namespace Emojis

/-- A JavaScript string, modelled as its sequence of UTF-16 code units. -/
abbrev JSString := List Nat

/-- A UTF-16 leading (high) surrogate code unit. -/
def isHighSurrogate (u : Nat) : Bool := decide (0xD800 ≤ u ∧ u ≤ 0xDBFF)

/-- A UTF-16 trailing (low) surrogate code unit. -/
def isLowSurrogate (u : Nat) : Bool := decide (0xDC00 ≤ u ∧ u ≤ 0xDFFF)

/-- The scalar value of a correctly paired surrogate pair. -/
def combineSurrogates (hi lo : Nat) : Nat :=
  (hi - 0xD800) * 0x400 + (lo - 0xDC00) + 0x10000

/-- `String.prototype.codePointAt(i)`: the code point starting at unit
index `i`; a high surrogate followed by a low surrogate yields the combined
scalar, anything else yields the unit itself. -/
def codePointAt (s : JSString) (i : Nat) : Option Nat :=
  match s[i]? with
  | none => none
  | some u =>
    if isHighSurrogate u then
      match s[i+1]? with
      | some v => if isLowSurrogate v then some (combineSurrogates u v) else some u
      | none => some u
    else some u

/-- The index loop of `getEmojiCodepoint` in `src/utils.ts` (and of the JS
string iterator used by `Array.from`): starting at unit index `i`, read the
code point at `i` and advance by 2 units when it exceeds `0xffff` (a
combined surrogate pair), else by 1.  `fuel` bounds the number of
iterations; since every step advances `i` by at least one unit, `fuel =
s.length` never exhausts. -/
def collectLoopAux (s : JSString) : Nat → Nat → List Nat
  | 0, _ => []
  | fuel + 1, i =>
    if i < s.length then
      let code := (codePointAt s i).getD 0
      code :: collectLoopAux s fuel (i + if 0xFFFF < code then 2 else 1)
    else []

/-- The code points of a JS string, in order, as produced by the loop of
`getEmojiCodepoint` / by `Array.from(s)`. -/
def collectCodePointsJS (s : JSString) : List Nat := collectLoopAux s s.length 0

/-- Structural restatement of the code-point loop: on genuine UTF-16 unit
sequences (every unit `< 0x10000`) the loop advances by 2 exactly when it
combined a surrogate pair, so it is equivalent to this recursion
(`collectLoopAux_eq` below). -/
def collectCodePoints : JSString → List Nat
  | [] => []
  | u :: rest =>
    if isHighSurrogate u then
      match rest with
      | [] => [u]
      | v :: rest2 =>
        if isLowSurrogate v then combineSurrogates u v :: collectCodePoints rest2
        else u :: collectCodePoints (v :: rest2)
    else u :: collectCodePoints rest

/-- Lowercase hexadecimal digits of `n`, most significant first, as
produced by JS `n.toString(16)`.  `fuel`-bounded; `fuel = n + 1` always
suffices since the recursion divides by 16. -/
def hexCharsAux : Nat → Nat → List Char
  | 0, _ => []
  | fuel + 1, n =>
    if n < 16 then [Nat.digitChar n]
    else hexCharsAux fuel (n / 16) ++ [Nat.digitChar (n % 16)]

/-- `n.toString(16)` as a character list: lowercase hex, no sign, no
prefix. -/
def hexChars (n : Nat) : List Char := hexCharsAux (n + 1) n

/-- `Array.prototype.join('-')` on a list of strings. -/
def joinHyphen : List (List Char) → List Char
  | [] => []
  | [p] => p
  | p :: ps => p ++ '-' :: joinHyphen ps

/-- `String.prototype.toLowerCase()`; on the ASCII output of
`join('-')`-of-hex this agrees with `Char.toLower` applied characterwise. -/
def jsToLowerCase (l : List Char) : List Char := l.map Char.toLower

/-- `getEmojiCodepoint` from `src/utils.ts`: iterate the code points of the
input, render each in hex, join with `'-'`, lowercase. -/
def getEmojiCodepoint (s : JSString) : String :=
  String.mk (jsToLowerCase (joinHyphen ((collectCodePointsJS s).map hexChars)))

/-- UTF-16 encoding of one code point, as a JS one-code-point string
(`String.fromCodePoint` on a single argument): code points above `0xFFFF`
become a surrogate pair. -/
def utf16Encode (c : Nat) : JSString :=
  if c ≤ 0xFFFF then [c]
  else [0xD800 + (c - 0x10000) / 0x400, 0xDC00 + (c - 0x10000) % 0x400]

/-- Value of one hexadecimal digit character, case-insensitive. -/
def hexDigitVal (ch : Char) : Option Nat :=
  if '0' ≤ ch ∧ ch ≤ '9' then some (ch.toNat - '0'.toNat)
  else if 'a' ≤ ch ∧ ch ≤ 'f' then some (ch.toNat - 'a'.toNat + 10)
  else if 'A' ≤ ch ∧ ch ≤ 'F' then some (ch.toNat - 'A'.toNat + 10)
  else none

/-- Accumulating hex parse: consume digits until the first non-digit (as JS
`parseInt` does) and return the value read so far. -/
def parseHexAcc (acc : Nat) : List Char → Nat
  | [] => acc
  | ch :: rest =>
    match hexDigitVal ch with
    | some d => parseHexAcc (16 * acc + d) rest
    | none => acc

/-- JS `parseInt(p, 16)` on inputs without sign, whitespace or `0x` prefix
(the only inputs it receives here): `none` models `NaN` (no leading hex
digit), otherwise the value of the maximal hex-digit prefix. -/
def parseIntHexL : List Char → Option Nat
  | [] => none
  | ch :: rest =>
    match hexDigitVal ch with
    | some d => some (parseHexAcc d rest)
    | none => none

/-- `String.prototype.split('-')`: maximal hyphen-free segments; the empty
string splits to `[""]`. -/
def splitHyphen : List Char → List (List Char)
  | [] => [[]]
  | ch :: rest =>
    if ch = '-' then [] :: splitHyphen rest
    else
      match splitHyphen rest with
      | p :: ps => (ch :: p) :: ps
      | [] => [[ch]]

/-- `String.fromCodePoint(...ns)`: `none` models the `RangeError` raised on
`NaN` (a `none` argument) or a value above `0x10FFFF`; otherwise the
concatenation of the UTF-16 encodings. -/
def fromCodePoint : List (Option Nat) → Option JSString
  | [] => some []
  | none :: _ => none
  | some v :: rest =>
    if v ≤ 0x10FFFF then (fromCodePoint rest).map (fun tail => utf16Encode v ++ tail)
    else none

/-- `toPrintableEmoji` from `src/utils.ts`: split the codepoint string on
`'-'`, `parseInt(_, 16)` each part, and rebuild the string with
`String.fromCodePoint`. -/
def toPrintableEmoji (s : String) : Option JSString :=
  fromCodePoint ((splitHyphen s.data).map parseIntHexL)

/-- Well-formed UTF-16: every unit is a genuine 16-bit code unit and every
surrogate occurs only as part of a correctly ordered pair. -/
def wellFormedUtf16 : JSString → Bool
  | [] => true
  | u :: rest =>
    if isHighSurrogate u then
      match rest with
      | [] => false
      | v :: rest2 => isLowSurrogate v && wellFormedUtf16 rest2
    else decide (u < 0x10000) && !isLowSurrogate u && wellFormedUtf16 rest

/-! ### Metadata store (`src/utils.ts`)

The metadata document types live in `src/types.ts`, which is not part of
the provided sources; their shape is modelled from the spec. -/

/-- Modelled from the spec: `Combination` of `src/types.ts` (absent from
the sources) — `{ gStaticUrl: string, isLatest: boolean, ... }`; the other
descriptive fields are opaque passthrough and are omitted. -/
structure Combination where
  gStaticUrl : String
  isLatest : Bool
deriving DecidableEq

/-- Modelled from the spec: `EmojiData` of `src/types.ts` (absent from the
sources) — `combinations`: mapping from partner-codepoint-string to an
ordered sequence of `Combination`, modelled as an association list. -/
structure EmojiData where
  combinations : List (String × List Combination)
deriving DecidableEq

/-- Modelled from the spec: `EmojiMetadata` of `src/types.ts` (absent from
the sources) — `knownSupportedEmoji` plus `data`: mapping from
codepoint-string to `EmojiData`. -/
structure EmojiMetadata where
  knownSupportedEmoji : List String
  data : List (String × EmojiData)
deriving DecidableEq

/-- JS object property lookup on an association list (object keys are
unique, so first match is the property value). -/
def lookupAssoc {α : Type} (m : List (String × α)) (key : String) : Option α :=
  (m.find? (fun p => p.1 == key)).map (fun p => p.2)

/-- `setEmojiMetadata` from `src/utils.ts`: overwrite the module-level
`emojiMetadata` binding (`none` models the initial undefined state). -/
def setEmojiMetadata (_st : Option EmojiMetadata) (metadata : EmojiMetadata) :
    Option EmojiMetadata :=
  some metadata

/-- The store state after a sequence of `setEmojiMetadata` calls, starting
from the initial undefined state. -/
def runSets (ms : List EmojiMetadata) : Option EmojiMetadata :=
  ms.foldl setEmojiMetadata none

/-- `getEmojiData` from `src/utils.ts`: throws `'元数据未加载'` when the
store was never set, else returns `emojiMetadata.data[emojiCodepoint]`
(possibly `undefined`). -/
def getEmojiData (st : Option EmojiMetadata) (emojiCodepoint : String) :
    Except String (Option EmojiData) :=
  match st with
  | none => .error "元数据未加载"
  | some m => .ok (lookupAssoc m.data emojiCodepoint)

/-- `getSupportedEmoji` from `src/utils.ts`: throws `'元数据未加载'` when
the store was never set, else returns `emojiMetadata.knownSupportedEmoji`. -/
def getSupportedEmoji (st : Option EmojiMetadata) : Except String (List String) :=
  match st with
  | none => .error "元数据未加载"
  | some m => .ok m.knownSupportedEmoji

/-- Whether an `Except` models a thrown JS error. -/
def isErr {α : Type} : Except String α → Bool
  | .error _ => true
  | .ok _ => false

/-! ### Metadata cache controller (`downloadMetadata` in `src/index.ts`,
`getMetadataFile` in the older variant of the file) -/

/-- The persisted cache descriptor `CacheMeta` (`metadata.cache.json`):
revalidation tokens of the last successful fetch.  `JSON.stringify` drops
absent fields, so the file content is modelled by the record itself. -/
structure CacheMeta where
  etag : Option String
  lastModified : Option String
deriving DecidableEq

/-- The decoded HTTP response produced by the `decoder`: status, raw body
(`arrayBuffer`, as bytes) and response headers. -/
structure Resp where
  status : Nat
  data : Option (List Nat)
  headers : List (String × String)
deriving DecidableEq

/-- Outcome of the single `ctx.http.get` call of one refresh invocation:
either a decoded response, or one of the error shapes the `catch` block
distinguishes (`error.response`, `error.code === 'ECONNABORTED'`, other). -/
inductive FetchOutcome where
  | resp (r : Resp)
  | httpError (status : Nat) (statusText : String)
  | timeout
  | other (msg : String)
deriving DecidableEq

/-- The plugin-private slice of the file system: the data directory, the
metadata file and the cache descriptor file. -/
structure FS where
  dirExists : Bool
  metadataFile : Option (List Nat)
  cacheFile : Option CacheMeta
deriving DecidableEq

/-- Externally visible steps of one refresh invocation, in order:
directory creation, the HTTP request (with its conditional headers), and
the two file writes. -/
inductive Event where
  | mkdir
  | httpGet (reqHeaders : List (String × String))
  | writeMeta (bytes : List Nat)
  | writeCache (m : CacheMeta)
deriving DecidableEq

/-- Response-header lookup by name.  The source reads headers by bracket
access in `src/index.ts` and by `headers.get` in the older variant (an
inconsistency the spec flags as an open question); both are modelled as
lookup of the lowercase header name. -/
def headersGet (hs : List (String × String)) (name : String) : Option String :=
  (hs.find? (fun p => p.1 == name)).map (fun p => p.2)

/-- JS truthiness of an optional string field: present and non-empty. -/
def truthyStr : Option String → Bool
  | some s => decide (s ≠ "")
  | none => false

/-- The conditional request headers built from the cache descriptor:
`If-None-Match` when an ETag is known, `If-Modified-Since` when a
Last-Modified is known. -/
def buildCondHeaders (m : CacheMeta) : List (String × String) :=
  (if truthyStr m.etag then [("If-None-Match", m.etag.getD "")] else []) ++
  (if truthyStr m.lastModified then [("If-Modified-Since", m.lastModified.getD "")] else [])

/-- `downloadMetadata` from `src/index.ts`: ensure the data directory,
read the cache descriptor (absence → `{}`), issue the conditional GET,
then: 304 → `false` (not modified); empty body → throw
`'服务器响应数据为空'`; otherwise write the body to `metadata.json`, then the
new descriptor to `metadata.cache.json`, and return `true`.  The `catch`
block maps an `error.response` to `'服务器响应异常: <status>'`, a timeout to
`'下载超时'`, and rethrows anything else.  Returns the result, the final
file-system state and the event trace. -/
def downloadMetadata (fs : FS) (fetch : FetchOutcome) :
    Except String Bool × FS × List Event :=
  let fs1 : FS := { fs with dirExists := true }
  let cacheMeta : CacheMeta := fs1.cacheFile.getD ⟨none, none⟩
  let reqHeaders := buildCondHeaders cacheMeta
  let ev0 : List Event := [.mkdir, .httpGet reqHeaders]
  match fetch with
  | .resp r =>
    if r.status = 304 then (.ok false, fs1, ev0)
    else if r.data = none ∨ r.data = some [] then
      (.error "服务器响应数据为空", fs1, ev0)
    else
      let body := r.data.getD []
      let newMeta : CacheMeta :=
        ⟨headersGet r.headers "etag", headersGet r.headers "last-modified"⟩
      let fs2 : FS := { fs1 with metadataFile := some body, cacheFile := some newMeta }
      (.ok true, fs2, ev0 ++ [.writeMeta body, .writeCache newMeta])
  | .httpError status _statusText =>
    (.error ("服务器响应异常: " ++ toString status), fs1, ev0)
  | .timeout => (.error "下载超时", fs1, ev0)
  | .other msg => (.error msg, fs1, ev0)

/-- `getMetadataFile` from the older variant of `src/index.ts` (the
unnamed source file): same fetch-and-write sequence as `downloadMetadata`,
but an empty body and every caught error all return `false` instead of
throwing. -/
def getMetadataFile (fs : FS) (fetch : FetchOutcome) :
    Except String Bool × FS × List Event :=
  let fs1 : FS := { fs with dirExists := true }
  let cacheMeta : CacheMeta := fs1.cacheFile.getD ⟨none, none⟩
  let reqHeaders := buildCondHeaders cacheMeta
  let ev0 : List Event := [.mkdir, .httpGet reqHeaders]
  match fetch with
  | .resp r =>
    if r.status = 304 then (.ok false, fs1, ev0)
    else if r.data = none ∨ r.data = some [] then (.ok false, fs1, ev0)
    else
      let body := r.data.getD []
      let newMeta : CacheMeta :=
        ⟨headersGet r.headers "etag", headersGet r.headers "last-modified"⟩
      let fs2 : FS := { fs1 with metadataFile := some body, cacheFile := some newMeta }
      (.ok true, fs2, ev0 ++ [.writeMeta body, .writeCache newMeta])
  | .httpError _status _statusText => (.ok false, fs1, ev0)
  | .timeout => (.ok false, fs1, ev0)
  | .other _msg => (.ok false, fs1, ev0)

/-! ### Loader / bootstrap (`loadMetadata` and `apply` in `src/index.ts`) -/

/-- `loadMetadata` from `src/index.ts`, up to the point its promise
resolves.  `parse` models `JSON.parse` of the metadata file followed by the
`EmojiMetadata` typing.  When the metadata file is absent, it calls
`downloadMetadata`; a `false` result becomes `'元数据文件下载失败'`; on
success it reinvokes itself WITHOUT `await` (`loadMetadata(ctx);` at line
130), so the promise resolves with the store not yet updated — the final
`Bool` component records that such a deferred reload is still pending.
When the file is present, it reads and parses it into the store via
`setEmojiMetadata`; a parse failure becomes `'元数据加载失败: <msg>'`. -/
def loadMetadata (parse : List Nat → Except String EmojiMetadata)
    (fs : FS) (store : Option EmojiMetadata) (fetch : FetchOutcome) :
    Except String (FS × Option EmojiMetadata × List Event × Bool) :=
  match fs.metadataFile with
  | none =>
    let (res, fs1, evs) := downloadMetadata fs fetch
    match res with
    | .error e => .error e
    | .ok false => .error "元数据文件下载失败"
    | .ok true => .ok (fs1, store, evs, true)
  | some bytes =>
    match parse bytes with
    | .ok metadata => .ok (fs, setEmojiMetadata store metadata, [], false)
    | .error e => .error ("元数据加载失败: " ++ e)

/-! ### The `emoji <emojis>` command action (`src/index.ts`) -/

/-- What the command action returns to the host: a plain message string, a
not-found message interpolating the two input characters
(`找不到 X 和 Y 的组合`), a caught-error message (`处理失败: <msg>`), or
`segment.image(url)`. -/
inductive ActionResult where
  | text (msg : String)
  | notFound (a b : JSString)
  | failure (msg : String)
  | image (url : String)
deriving DecidableEq

/-- `'请输入两个emoji表情'` (returned when the argument is missing or the
empty string). -/
def usageEmptyMsg : String := "请输入两个emoji表情"

/-- `'请输入恰好两个emoji表情'` (returned when the trimmed argument does not
consist of exactly two code points). -/
def usageCountMsg : String := "请输入恰好两个emoji表情"

/-- JS `String.prototype.trim` whitespace (WhiteSpace ∪ LineTerminator
code points). -/
def isJsWhitespace (u : Nat) : Bool :=
  decide (u ∈ [0x9, 0xA, 0xB, 0xC, 0xD, 0x20, 0xA0, 0x1680,
    0x2000, 0x2001, 0x2002, 0x2003, 0x2004, 0x2005, 0x2006, 0x2007,
    0x2008, 0x2009, 0x200A, 0x2028, 0x2029, 0x202F, 0x205F, 0x3000, 0xFEFF])

/-- `String.prototype.trim()`. -/
def jsTrim (s : JSString) : JSString :=
  ((s.dropWhile isJsWhitespace).reverse.dropWhile isJsWhitespace).reverse

/-- The `emoji <emojis:string>` command action from `src/index.ts`.
`emojis = none` models a missing argument; `Array.from(emojis.trim())`
iterates by code points (`collectCodePointsJS`), and each element of the
resulting array is the one-code-point string `utf16Encode` of that code
point.  The `try`/`catch` around the lookup turns the `getEmojiData` throw
into `处理失败: <msg>`. -/
def emojiAction (store : Option EmojiMetadata) (emojis : Option JSString) :
    ActionResult :=
  match emojis with
  | none => .text usageEmptyMsg
  | some s =>
    if s = [] then .text usageEmptyMsg
    else
      match collectCodePointsJS (jsTrim s) with
      | [a, b] =>
        let first := utf16Encode a
        let second := utf16Encode b
        let cp1 := getEmojiCodepoint first
        let cp2 := getEmojiCodepoint second
        match getEmojiData store cp1 with
        | .error e => .failure e
        | .ok data1 =>
          match data1.bind (fun d => lookupAssoc d.combinations cp2) with
          | none => .notFound first second
          | some [] => .notFound first second
          | some (c0 :: rest) =>
            .image ((((c0 :: rest).find? (fun c => c.isLatest)).getD c0).gStaticUrl)
      | _ => .text usageCountMsg

/-! ## Lemmas about the hexadecimal rendering -/

/-- A lowercase hexadecimal digit character. -/
def isLowerHexDigit (ch : Char) : Bool :=
  (decide ('0' ≤ ch) && decide (ch ≤ '9')) || (decide ('a' ≤ ch) && decide (ch ≤ 'f'))

theorem hexCharsAux_stable (fuel1 : Nat) :
    ∀ fuel2 n, n < fuel1 → n < fuel2 → hexCharsAux fuel1 n = hexCharsAux fuel2 n := by
  induction fuel1 with
  | zero => intro fuel2 n h1 _; omega
  | succ f1 ih =>
    intro fuel2 n h1 h2
    cases fuel2 with
    | zero => omega
    | succ f2 =>
      by_cases h16 : n < 16
      · simp [hexCharsAux, h16]
      · have hdiv : n / 16 < n := Nat.div_lt_self (by omega) (by omega)
        simp only [hexCharsAux, if_neg h16]
        have e1 : hexCharsAux f1 (n / 16) = hexCharsAux (n / 16 + 1) (n / 16) :=
          ih (n / 16 + 1) (n / 16) (by omega) (by omega)
        have e2 : hexCharsAux f2 (n / 16) = hexCharsAux (n / 16 + 1) (n / 16) :=
          (ih f2 (n / 16) (by omega) (by omega)).symm.trans e1
        rw [e1, e2]

theorem hexChars_unfold (n : Nat) :
    hexChars n =
      if n < 16 then [Nat.digitChar n]
      else hexChars (n / 16) ++ [Nat.digitChar (n % 16)] := by
  by_cases h16 : n < 16
  · simp [hexChars, hexCharsAux, h16]
  · have hdiv : n / 16 < n := Nat.div_lt_self (by omega) (by omega)
    rw [if_neg h16]
    show hexCharsAux (n + 1) n = _
    rw [show hexCharsAux (n + 1) n = hexCharsAux n (n / 16) ++ [Nat.digitChar (n % 16)] from by
      simp [hexCharsAux, h16]]
    rw [hexCharsAux_stable n (n / 16 + 1) (n / 16) (by omega) (by omega)]
    rfl

theorem hexChars_mem (n : Nat) :
    ∀ ch ∈ hexChars n, ∃ d, d < 16 ∧ ch = Nat.digitChar d := by
  induction n using Nat.strong_induction_on with
  | _ n ih =>
    intro ch hch
    rw [hexChars_unfold] at hch
    by_cases h16 : n < 16
    · rw [if_pos h16] at hch
      simp only [List.mem_singleton] at hch
      exact ⟨n, h16, hch⟩
    · rw [if_neg h16] at hch
      rcases List.mem_append.mp hch with hl | hr
      · exact ih (n / 16) (Nat.div_lt_self (by omega) (by omega)) ch hl
      · simp only [List.mem_singleton] at hr
        exact ⟨n % 16, Nat.mod_lt n (by omega), hr⟩

theorem digitChar_lower_hex : ∀ d, d < 16 → isLowerHexDigit (Nat.digitChar d) = true := by
  decide

theorem digitChar_toLower : ∀ d, d < 16 → (Nat.digitChar d).toLower = Nat.digitChar d := by
  decide

theorem digitChar_ne_hyphen : ∀ d, d < 16 → Nat.digitChar d ≠ '-' := by
  decide

theorem hexDigitVal_digitChar : ∀ d, d < 16 → hexDigitVal (Nat.digitChar d) = some d := by
  decide

theorem hexChars_ne_nil (n : Nat) : hexChars n ≠ [] := by
  rw [hexChars_unfold]
  by_cases h16 : n < 16 <;> simp [h16]

theorem hexChars_lower_hex (n : Nat) : ∀ ch ∈ hexChars n, isLowerHexDigit ch = true := by
  intro ch hch
  obtain ⟨d, hd, rfl⟩ := hexChars_mem n ch hch
  exact digitChar_lower_hex d hd

theorem hexChars_no_hyphen (n : Nat) : '-' ∉ hexChars n := by
  intro hmem
  obtain ⟨d, hd, hch⟩ := hexChars_mem n '-' hmem
  exact digitChar_ne_hyphen d hd hch.symm

/-! ## Lemmas about the hexadecimal parse (print/parse round trip) -/

theorem parseHexAcc_append (l1 l2 : List Char) (hdig : ∀ ch ∈ l1, (hexDigitVal ch).isSome) :
    ∀ acc, parseHexAcc acc (l1 ++ l2) = parseHexAcc (parseHexAcc acc l1) l2 := by
  induction l1 with
  | nil => intro acc; rfl
  | cons ch rest ih =>
    intro acc
    have hch : (hexDigitVal ch).isSome := hdig ch (List.mem_cons_self ch rest)
    obtain ⟨d, hd⟩ := Option.isSome_iff_exists.mp hch
    simp only [List.cons_append, parseHexAcc, hd]
    exact ih (fun c hc => hdig c (List.mem_cons_of_mem ch hc)) (16 * acc + d)

theorem parseHexAcc_hexChars (n : Nat) :
    ∀ acc, parseHexAcc acc (hexChars n) = acc * 16 ^ (hexChars n).length + n := by
  induction n using Nat.strong_induction_on with
  | _ n ih =>
    intro acc
    by_cases h16 : n < 16
    · rw [hexChars_unfold, if_pos h16]
      simp only [parseHexAcc, hexDigitVal_digitChar n h16, List.length_singleton]
      omega
    · have hdiv : n / 16 < n := Nat.div_lt_self (by omega) (by omega)
      rw [hexChars_unfold, if_neg h16]
      rw [parseHexAcc_append _ _ (fun ch hch => by
        obtain ⟨d, hd, rfl⟩ := hexChars_mem (n / 16) ch hch
        rw [hexDigitVal_digitChar d hd]; rfl)]
      rw [ih (n / 16) hdiv acc]
      simp only [parseHexAcc, hexDigitVal_digitChar (n % 16) (Nat.mod_lt n (by omega)),
        List.length_append, List.length_singleton, pow_succ]
      generalize 16 ^ (hexChars (n / 16)).length = K
      have : acc * (K * 16) = acc * K * 16 := by ring
      rw [this]
      omega

theorem parseIntHexL_hexChars (n : Nat) : parseIntHexL (hexChars n) = some n := by
  rcases hc : hexChars n with _ | ⟨ch, rest⟩
  · exact absurd hc (hexChars_ne_nil n)
  · obtain ⟨d, hd, hchd⟩ := hexChars_mem n ch (by rw [hc]; exact List.mem_cons_self ch rest)
    have hv : hexDigitVal ch = some d := hchd ▸ hexDigitVal_digitChar d hd
    have h0 : parseHexAcc 0 (hexChars n) = n := by
      rw [parseHexAcc_hexChars n 0]; omega
    rw [hc] at h0
    simp only [parseHexAcc, hv] at h0
    rw [show 16 * 0 + d = d from by omega] at h0
    simp only [parseIntHexL, hv, h0]

/-! ## Lemmas about join, split and lowercasing -/

theorem joinHyphen_mem (ps : List (List Char)) :
    ∀ ch ∈ joinHyphen ps, ch = '-' ∨ ∃ p ∈ ps, ch ∈ p := by
  induction ps with
  | nil => intro ch hch; cases hch
  | cons p ps ih =>
    intro ch hch
    cases ps with
    | nil =>
      simp only [joinHyphen] at hch
      exact Or.inr ⟨p, List.mem_cons_self p [], hch⟩
    | cons q ps2 =>
      simp only [joinHyphen] at hch
      rcases List.mem_append.mp hch with hl | hr
      · exact Or.inr ⟨p, List.mem_cons_self p (q :: ps2), hl⟩
      · rcases List.mem_cons.mp hr with he | hj
        · exact Or.inl he
        · rcases ih ch hj with h1 | ⟨r, hr1, hr2⟩
          · exact Or.inl h1
          · exact Or.inr ⟨r, List.mem_cons_of_mem p hr1, hr2⟩

theorem splitHyphen_no_hyphen (p : List Char) (hp : '-' ∉ p) : splitHyphen p = [p] := by
  induction p with
  | nil => rfl
  | cons ch rest ih =>
    have hch : ch ≠ '-' := fun h => hp (h ▸ List.mem_cons_self ch rest)
    have hrest : '-' ∉ rest := fun h => hp (List.mem_cons_of_mem ch h)
    simp only [splitHyphen, if_neg hch, ih hrest]

theorem splitHyphen_append (p r : List Char) (hp : '-' ∉ p) :
    splitHyphen (p ++ '-' :: r) = p :: splitHyphen r := by
  induction p with
  | nil => simp [splitHyphen]
  | cons ch rest ih =>
    have hch : ch ≠ '-' := fun h => hp (h ▸ List.mem_cons_self ch rest)
    have hrest : '-' ∉ rest := fun h => hp (List.mem_cons_of_mem ch h)
    simp only [List.cons_append, splitHyphen, if_neg hch]
    rw [List.append_eq, ih hrest]

theorem splitHyphen_joinHyphen (p : List Char) (ps : List (List Char))
    (hp : ∀ q ∈ p :: ps, '-' ∉ q) :
    splitHyphen (joinHyphen (p :: ps)) = p :: ps := by
  induction ps generalizing p with
  | nil => exact splitHyphen_no_hyphen p (hp p (List.mem_cons_self p []))
  | cons q ps2 ih =>
    show splitHyphen (p ++ '-' :: joinHyphen (q :: ps2)) = p :: q :: ps2
    rw [splitHyphen_append _ _ (hp p (List.mem_cons_self p (q :: ps2)))]
    rw [ih q (fun r hr => hp r (List.mem_cons_of_mem p hr))]

theorem jsToLowerCase_fixed (l : List Char) (h : ∀ ch ∈ l, ch.toLower = ch) :
    jsToLowerCase l = l := by
  induction l with
  | nil => rfl
  | cons ch rest ih =>
    simp only [jsToLowerCase, List.map_cons, h ch (List.mem_cons_self ch rest)]
    exact congrArg _ (ih (fun c hc => h c (List.mem_cons_of_mem ch hc)))

/-! ## Lemmas about the UTF-16 code-point iteration -/

theorem collectLoopAux_out (s : JSString) (fuel i : Nat) (h : s.length ≤ i) :
    collectLoopAux s fuel i = [] := by
  cases fuel with
  | zero => rfl
  | succ f => simp [collectLoopAux, Nat.not_lt.mpr h]

theorem collectLoopAux_eq (s : JSString) (hu : ∀ u ∈ s, u < 0x10000) :
    ∀ fuel i, s.length - i ≤ fuel → collectLoopAux s fuel i = collectCodePoints (s.drop i) := by
  intro fuel
  induction fuel with
  | zero =>
    intro i h
    have hlen : s.length ≤ i := by omega
    rw [collectLoopAux_out s 0 i hlen, List.drop_eq_nil_of_le hlen]
    rfl
  | succ f ih =>
    intro i h
    by_cases hi : i < s.length
    · have hdrop : s.drop i = s[i] :: s.drop (i + 1) := List.drop_eq_getElem_cons hi
      have hgeti : s[i]? = some s[i] := List.getElem?_eq_getElem hi
      by_cases hhigh : isHighSurrogate s[i] = true
      · rcases hnext : s[i + 1]? with _ | v
        · -- lone trailing high surrogate: the unit itself is the code point
          have hlen2 : s.length ≤ i + 1 := by
            by_contra hc
            rw [List.getElem?_eq_getElem (by omega)] at hnext
            cases hnext
          have hdrop2 : s.drop (i + 1) = [] := List.drop_eq_nil_of_le hlen2
          have hle : ¬ (0xFFFF < s[i]) := by
            simp only [isHighSurrogate, decide_eq_true_eq] at hhigh
            omega
          have hcp : codePointAt s i = some s[i] := by
            simp [codePointAt, hgeti, hhigh, hnext]
          simp only [collectLoopAux, if_pos hi, hcp, Option.getD_some, if_neg hle]
          rw [collectLoopAux_out s f (i + 1) hlen2, hdrop, hdrop2]
          simp [collectCodePoints, hhigh]
        · have hi2 : i + 1 < s.length := by
            by_contra hc
            rw [List.getElem?_eq_none (by omega)] at hnext
            cases hnext
          have hv : v = s[i + 1] := by
            rw [List.getElem?_eq_getElem hi2] at hnext
            cases hnext; rfl
          subst hv
          have hdrop2 : s.drop (i + 1) = s[i + 1] :: s.drop (i + 2) :=
            List.drop_eq_getElem_cons hi2
          by_cases hlow : isLowSurrogate s[i + 1] = true
          · have hgt : 0xFFFF < combineSurrogates s[i] s[i + 1] := by
              unfold combineSurrogates; omega
            have hcp : codePointAt s i = some (combineSurrogates s[i] s[i + 1]) := by
              simp [codePointAt, hgeti, hhigh, hnext, hlow]
            simp only [collectLoopAux, if_pos hi, hcp, Option.getD_some, if_pos hgt]
            rw [ih (i + 2) (by omega), hdrop, hdrop2]
            simp [collectCodePoints, hhigh, hlow]
          · have hle : ¬ (0xFFFF < s[i]) := by
              simp only [isHighSurrogate, decide_eq_true_eq] at hhigh
              omega
            have hcp : codePointAt s i = some s[i] := by
              simp [codePointAt, hgeti, hhigh, hnext, hlow]
            simp only [collectLoopAux, if_pos hi, hcp, Option.getD_some, if_neg hle]
            rw [ih (i + 1) (by omega), hdrop, hdrop2]
            simp [collectCodePoints, hhigh, hlow]
      · have hle : ¬ (0xFFFF < s[i]) := by
          have := hu s[i] (List.getElem_mem hi)
          omega
        have hcp : codePointAt s i = some s[i] := by
          simp [codePointAt, hgeti, hhigh]
        simp only [collectLoopAux, if_pos hi, hcp, Option.getD_some, if_neg hle]
        rw [ih (i + 1) (by omega), hdrop]
        generalize List.drop (i + 1) s = tail
        rcases tail with _ | ⟨w, ws⟩ <;> simp [collectCodePoints, hhigh]
    · rw [collectLoopAux_out s (f + 1) i (by omega), List.drop_eq_nil_of_le (by omega)]
      rfl

theorem collectCodePointsJS_eq (s : JSString) (hu : ∀ u ∈ s, u < 0x10000) :
    collectCodePointsJS s = collectCodePoints s := by
  have := collectLoopAux_eq s hu s.length 0 (by omega)
  simpa [collectCodePointsJS] using this

/-! ## Lemmas about well-formed UTF-16 and the encode/decode round trip -/

theorem isHighSurrogate_bounds {u : Nat} (h : isHighSurrogate u = true) :
    0xD800 ≤ u ∧ u ≤ 0xDBFF := by
  simpa [isHighSurrogate] using h

theorem isLowSurrogate_bounds {u : Nat} (h : isLowSurrogate u = true) :
    0xDC00 ≤ u ∧ u ≤ 0xDFFF := by
  simpa [isLowSurrogate] using h

theorem wellFormedUtf16_units (s : JSString) (h : wellFormedUtf16 s = true) :
    ∀ u ∈ s, u < 0x10000 := by
  induction s using collectCodePoints.induct with
  | case1 => intro u hu; cases hu
  | case2 u hhigh => simp [wellFormedUtf16, hhigh] at h
  | case3 u hhigh v rest2 hlow ih =>
    simp only [wellFormedUtf16, if_pos hhigh, Bool.and_eq_true] at h
    obtain ⟨hlow2, hwf⟩ := h
    intro w hw
    rcases List.mem_cons.mp hw with rfl | hw2
    · have := isHighSurrogate_bounds hhigh; omega
    · rcases List.mem_cons.mp hw2 with rfl | hw3
      · have := isLowSurrogate_bounds hlow; omega
      · exact ih hwf w hw3
  | case4 u hhigh v rest2 hlow ih =>
    simp [wellFormedUtf16, if_pos hhigh, hlow] at h
  | case5 u rest hhigh ih =>
    rcases rest with _ | ⟨w0, ws⟩
    · simp only [wellFormedUtf16, if_neg hhigh, Bool.and_eq_true, decide_eq_true_eq] at h
      intro w hw
      rcases List.mem_cons.mp hw with rfl | hw2
      · exact h.1.1
      · cases hw2
    · simp only [wellFormedUtf16, if_neg hhigh, Bool.and_eq_true, decide_eq_true_eq] at h
      obtain ⟨⟨hu16, _⟩, hwf⟩ := h
      intro w hw
      rcases List.mem_cons.mp hw with rfl | hw2
      · exact hu16
      · exact ih hwf w hw2

theorem collectCodePoints_valid (s : JSString) (h : wellFormedUtf16 s = true) :
    ∀ c ∈ collectCodePoints s, c ≤ 0x10FFFF := by
  induction s using collectCodePoints.induct with
  | case1 => intro c hc; cases hc
  | case2 u hhigh => simp [wellFormedUtf16, hhigh] at h
  | case3 u hhigh v rest2 hlow ih =>
    simp only [wellFormedUtf16, if_pos hhigh, Bool.and_eq_true] at h
    obtain ⟨_, hwf⟩ := h
    intro c hc
    simp only [collectCodePoints, if_pos hhigh, if_pos hlow] at hc
    rcases List.mem_cons.mp hc with rfl | hc2
    · have h1 := isHighSurrogate_bounds hhigh
      have h2 := isLowSurrogate_bounds hlow
      unfold combineSurrogates
      omega
    · exact ih hwf c hc2
  | case4 u hhigh v rest2 hlow ih =>
    simp [wellFormedUtf16, if_pos hhigh, hlow] at h
  | case5 u rest hhigh ih =>
    rcases rest with _ | ⟨w, ws⟩
    · simp only [wellFormedUtf16, if_neg hhigh, Bool.and_eq_true, decide_eq_true_eq] at h
      intro c hc
      simp only [collectCodePoints, if_neg hhigh] at hc
      rcases List.mem_cons.mp hc with rfl | hc2
      · have := h.1.1; omega
      · cases hc2
    · simp only [wellFormedUtf16, if_neg hhigh, Bool.and_eq_true, decide_eq_true_eq] at h
      obtain ⟨⟨hu16, _⟩, hwf⟩ := h
      intro c hc
      simp only [collectCodePoints, if_neg hhigh] at hc
      rcases List.mem_cons.mp hc with rfl | hc2
      · omega
      · exact ih hwf c hc2

theorem utf16Encode_combine (u v : Nat) (hu : isHighSurrogate u = true)
    (hv : isLowSurrogate v = true) :
    utf16Encode (combineSurrogates u v) = [u, v] := by
  have h1 := isHighSurrogate_bounds hu
  have h2 := isLowSurrogate_bounds hv
  have hle : ¬ ((u - 0xD800) * 0x400 + (v - 0xDC00) + 0x10000 ≤ 0xFFFF) := by omega
  simp only [utf16Encode, combineSurrogates, if_neg hle, List.cons.injEq, and_true]
  constructor <;> omega

theorem utf16Encode_collect (s : JSString) (h : wellFormedUtf16 s = true) :
    (collectCodePoints s).foldr (fun c acc => utf16Encode c ++ acc) [] = s := by
  induction s using collectCodePoints.induct with
  | case1 => rfl
  | case2 u hhigh => simp [wellFormedUtf16, hhigh] at h
  | case3 u hhigh v rest2 hlow ih =>
    simp only [wellFormedUtf16, if_pos hhigh, Bool.and_eq_true] at h
    obtain ⟨_, hwf⟩ := h
    simp only [collectCodePoints, if_pos hhigh, if_pos hlow, List.foldr_cons]
    rw [ih hwf, utf16Encode_combine u v hhigh hlow]
    rfl
  | case4 u hhigh v rest2 hlow ih =>
    simp [wellFormedUtf16, if_pos hhigh, hlow] at h
  | case5 u rest hhigh ih =>
    rcases rest with _ | ⟨w, ws⟩
    · simp only [wellFormedUtf16, if_neg hhigh, Bool.and_eq_true, decide_eq_true_eq] at h
      have henc : utf16Encode u = [u] := by
        have := h.1.1
        simp only [utf16Encode, if_pos (by omega : u ≤ 0xFFFF)]
      simp [collectCodePoints, if_neg hhigh, henc]
    · simp only [wellFormedUtf16, if_neg hhigh, Bool.and_eq_true, decide_eq_true_eq] at h
      obtain ⟨⟨hu16, _⟩, hwf⟩ := h
      have henc : utf16Encode u = [u] := by
        simp only [utf16Encode, if_pos (by omega : u ≤ 0xFFFF)]
      simp only [collectCodePoints, if_neg hhigh, List.foldr_cons]
      rw [ih hwf, henc]
      rfl

theorem collectCodePoints_ne_nil (s : JSString) (h : s ≠ []) :
    collectCodePoints s ≠ [] := by
  rcases s with _ | ⟨u, _ | ⟨v, rest2⟩⟩
  · exact absurd rfl h
  · by_cases hhigh : isHighSurrogate u = true <;> simp [collectCodePoints, hhigh]
  · by_cases hhigh : isHighSurrogate u = true
    · by_cases hlow : isLowSurrogate v = true <;> simp [collectCodePoints, hhigh, hlow]
    · simp [collectCodePoints, hhigh]

theorem fromCodePoint_map_some (cs : List Nat) (h : ∀ c ∈ cs, c ≤ 0x10FFFF) :
    fromCodePoint (cs.map some) =
      some (cs.foldr (fun c acc => utf16Encode c ++ acc) []) := by
  induction cs with
  | nil => rfl
  | cons c rest ih =>
    have hc : c ≤ 0x10FFFF := h c (List.mem_cons_self c rest)
    simp [fromCodePoint, hc, ih (fun x hx => h x (List.mem_cons_of_mem c hx))]

theorem jsToLowerCase_joinHyphen_hexChars (cs : List Nat) :
    jsToLowerCase (joinHyphen (cs.map hexChars)) = joinHyphen (cs.map hexChars) := by
  apply jsToLowerCase_fixed
  intro ch hch
  rcases joinHyphen_mem _ ch hch with rfl | ⟨p, hp, hchp⟩
  · decide
  · rcases List.mem_map.mp hp with ⟨n, _, rfl⟩
    obtain ⟨d, hd, rfl⟩ := hexChars_mem n ch hchp
    exact digitChar_toLower d hd

/-! ## Claim theorems -/

/-- C4: for every single Unicode scalar value, `getEmojiCodepoint` applied
to its (possibly surrogate-pair) UTF-16 string is exactly the lowercase
hexadecimal rendering of the scalar — a single hyphen-free segment whose
hex value parses back to the scalar — not one segment per UTF-16 code
unit. -/
theorem c4_encode_single_scalar (c : Nat) (hlt : c < 0x110000)
    (hns : ¬ (0xD800 ≤ c ∧ c ≤ 0xDFFF)) :
    getEmojiCodepoint (utf16Encode c) = String.mk (hexChars c) ∧
    parseIntHexL (hexChars c) = some c ∧
    (∀ ch ∈ hexChars c, isLowerHexDigit ch = true) ∧
    '-' ∉ hexChars c := by
  refine ⟨?_, parseIntHexL_hexChars c, hexChars_lower_hex c, hexChars_no_hyphen c⟩
  have hcollect : collectCodePoints (utf16Encode c) = [c] := by
    by_cases hbmp : c ≤ 0xFFFF
    · have hhigh : ¬ isHighSurrogate c = true := by
        simp only [isHighSurrogate, decide_eq_true_eq]
        omega
      simp [utf16Encode, if_pos hbmp, collectCodePoints, hhigh]
    · have hhi : isHighSurrogate (0xD800 + (c - 0x10000) / 0x400) = true := by
        simp only [isHighSurrogate, decide_eq_true_eq]
        omega
      have hlo : isLowSurrogate (0xDC00 + (c - 0x10000) % 0x400) = true := by
        simp only [isLowSurrogate, decide_eq_true_eq]
        omega
      have hcomb : combineSurrogates (0xD800 + (c - 0x10000) / 0x400)
          (0xDC00 + (c - 0x10000) % 0x400) = c := by
        unfold combineSurrogates
        omega
      simp [utf16Encode, if_neg hbmp, collectCodePoints, hhi, hlo, hcomb]
  have hu : ∀ u ∈ utf16Encode c, u < 0x10000 := by
    unfold utf16Encode
    by_cases hbmp : c ≤ 0xFFFF
    · rw [if_pos hbmp]
      intro u hu
      rcases List.mem_singleton.mp hu with rfl
      omega
    · rw [if_neg hbmp]
      intro u hu
      simp only [List.mem_cons, List.not_mem_nil, or_false] at hu
      rcases hu with h1 | h1 <;> omega
  unfold getEmojiCodepoint
  rw [collectCodePointsJS_eq _ hu, hcollect]
  rw [show ([c].map hexChars) = [hexChars c] from rfl]
  rw [show joinHyphen [hexChars c] = hexChars c from rfl]
  rw [jsToLowerCase_fixed _ (fun ch hch => by
    obtain ⟨d, hd, rfl⟩ := hexChars_mem c ch hch
    exact digitChar_toLower d hd)]

/-- C4 witness: U+1F600 (UTF-16 `[0xD83D, 0xDE00]`) encodes to the single
segment `"1f600"`. -/
theorem c4_witness :
    0x1F600 < 0x110000 ∧ ¬ (0xD800 ≤ 0x1F600 ∧ 0x1F600 ≤ 0xDFFF) ∧
    getEmojiCodepoint (utf16Encode 0x1F600) = "1f600" :=
  ⟨by decide, by decide, by
    rw [(c4_encode_single_scalar 0x1F600 (by decide) (by decide)).1]
    decide⟩

/-- C10: for every non-empty well-formed UTF-16 string,
`toPrintableEmoji (getEmojiCodepoint s) = s`; for the empty string the
round trip fails (`getEmojiCodepoint "" = ""` and `toPrintableEmoji ""` is
a `RangeError`, not `""`). -/
theorem c10_roundtrip :
    (∀ s : JSString, s ≠ [] → wellFormedUtf16 s = true →
        toPrintableEmoji (getEmojiCodepoint s) = some s) ∧
    toPrintableEmoji (getEmojiCodepoint []) = none := by
  constructor
  · intro s hne hwf
    have hu := wellFormedUtf16_units s hwf
    unfold getEmojiCodepoint toPrintableEmoji
    rw [collectCodePointsJS_eq s hu, jsToLowerCase_joinHyphen_hexChars]
    rcases hcs : collectCodePoints s with _ | ⟨c, cs2⟩
    · exact absurd hcs (collectCodePoints_ne_nil s hne)
    · have hdata : (String.mk (joinHyphen ((c :: cs2).map hexChars))).data
          = joinHyphen ((c :: cs2).map hexChars) := rfl
      rw [hdata, List.map_cons]
      rw [splitHyphen_joinHyphen (hexChars c) (cs2.map hexChars) (by
        intro q hq
        rcases List.mem_cons.mp hq with rfl | hq2
        · exact hexChars_no_hyphen c
        · rcases List.mem_map.mp hq2 with ⟨n, _, rfl⟩
          exact hexChars_no_hyphen n)]
      have hparse : (hexChars c :: cs2.map hexChars).map parseIntHexL
          = (c :: cs2).map some := by
        simp only [List.map_cons, List.map_map, parseIntHexL_hexChars]
        refine congrArg _ ?_
        have : ∀ (l : List Nat), l.map (parseIntHexL ∘ hexChars) = l.map some := by
          intro l
          induction l with
          | nil => rfl
          | cons x xs ih =>
            simp only [List.map_cons, Function.comp_apply, parseIntHexL_hexChars, ih]
        exact this cs2
      rw [hparse]
      rw [fromCodePoint_map_some (c :: cs2) (hcs ▸ collectCodePoints_valid s hwf)]
      rw [show (c :: cs2) = collectCodePoints s from hcs.symm]
      exact congrArg some (utf16Encode_collect s hwf)
  · rfl

/-- C10 witness: the round trip evaluated on the single emoji U+1F600. -/
theorem c10_witness :
    ([0xD83D, 0xDE00] : JSString) ≠ [] ∧ wellFormedUtf16 [0xD83D, 0xDE00] = true ∧
    toPrintableEmoji (getEmojiCodepoint [0xD83D, 0xDE00]) = some [0xD83D, 0xDE00] :=
  ⟨by decide, by decide, c10_roundtrip.1 [0xD83D, 0xDE00] (by decide) (by decide)⟩

/-- A concrete metadata document used by concrete instantiations: U+1F602
combines with U+1F436 through two combinations, the second marked
`isLatest`. -/
def demoMeta : EmojiMetadata :=
  ⟨["1f602"],
   [("1f602", ⟨[("1f436", [⟨"https://gstatic/a.png", false⟩,
                           ⟨"https://gstatic/b.png", true⟩])]⟩)]⟩

/-- C6: on an HTTP 304 response, both refresh implementations return the
NotModified outcome (`false`), leave the metadata file and the descriptor
file unchanged, and emit no file-write event. -/
theorem c6_not_modified_no_write (fs : FS) (r : Resp) (h : r.status = 304) :
    downloadMetadata fs (.resp r) =
      (.ok false, { fs with dirExists := true },
        [Event.mkdir, Event.httpGet (buildCondHeaders (fs.cacheFile.getD ⟨none, none⟩))]) ∧
    getMetadataFile fs (.resp r) =
      (.ok false, { fs with dirExists := true },
        [Event.mkdir, Event.httpGet (buildCondHeaders (fs.cacheFile.getD ⟨none, none⟩))]) ∧
    (downloadMetadata fs (.resp r)).2.1.metadataFile = fs.metadataFile ∧
    (downloadMetadata fs (.resp r)).2.1.cacheFile = fs.cacheFile ∧
    (∀ b, Event.writeMeta b ∉ (downloadMetadata fs (.resp r)).2.2) ∧
    (∀ m, Event.writeCache m ∉ (downloadMetadata fs (.resp r)).2.2) := by
  have hd : downloadMetadata fs (.resp r) =
      (.ok false, { fs with dirExists := true },
        [Event.mkdir, Event.httpGet (buildCondHeaders (fs.cacheFile.getD ⟨none, none⟩))]) := by
    simp [downloadMetadata, h]
  have hg : getMetadataFile fs (.resp r) =
      (.ok false, { fs with dirExists := true },
        [Event.mkdir, Event.httpGet (buildCondHeaders (fs.cacheFile.getD ⟨none, none⟩))]) := by
    simp [getMetadataFile, h]
  refine ⟨hd, hg, ?_, ?_, ?_, ?_⟩ <;> rw [hd] <;> simp

/-- C6 witness: a 304 response against a warm cache. -/
theorem c6_witness :
    (304 : Nat) = 304 ∧
    downloadMetadata ⟨true, some [7], some ⟨some "E", some "L"⟩⟩
        (.resp ⟨304, some [], [("etag", "E2")]⟩) =
      (.ok false, ⟨true, some [7], some ⟨some "E", some "L"⟩⟩,
        [Event.mkdir,
         Event.httpGet [("If-None-Match", "E"), ("If-Modified-Since", "L")]]) :=
  ⟨rfl, (c6_not_modified_no_write ⟨true, some [7], some ⟨some "E", some "L"⟩⟩
      ⟨304, some [], [("etag", "E2")]⟩ rfl).1⟩

/-- C5: on a successful non-304 fetch with a non-empty body, the refresh
writes the body to the metadata file strictly before the new descriptor
(etag / last-modified from the response headers), then returns the Updated
outcome (`true`); every prefix of the event trace that contains the
descriptor write already contains the metadata write, so no reachable
intermediate state has a new descriptor without the new metadata.  Both
implementations behave identically on this path. -/
theorem c5_write_order (fs : FS) (r : Resp) (body : List Nat)
    (hd : r.data = some body) (hne : body ≠ []) (h304 : r.status ≠ 304) :
    downloadMetadata fs (.resp r) =
      (.ok true,
        ⟨true, some body,
          some ⟨headersGet r.headers "etag", headersGet r.headers "last-modified"⟩⟩,
        [Event.mkdir, Event.httpGet (buildCondHeaders (fs.cacheFile.getD ⟨none, none⟩)),
         Event.writeMeta body,
         Event.writeCache ⟨headersGet r.headers "etag", headersGet r.headers "last-modified"⟩]) ∧
    getMetadataFile fs (.resp r) = downloadMetadata fs (.resp r) ∧
    (∀ n m, Event.writeCache m ∈ ((downloadMetadata fs (.resp r)).2.2.take n) →
        Event.writeMeta body ∈ ((downloadMetadata fs (.resp r)).2.2.take n)) := by
  have hdata : ¬ (r.data = none ∨ r.data = some []) := by
    rw [hd]
    simp [hne]
  have hgetd : r.data.getD [] = body := by rw [hd]; rfl
  have hdl : downloadMetadata fs (.resp r) =
      (.ok true,
        ⟨true, some body,
          some ⟨headersGet r.headers "etag", headersGet r.headers "last-modified"⟩⟩,
        [Event.mkdir, Event.httpGet (buildCondHeaders (fs.cacheFile.getD ⟨none, none⟩)),
         Event.writeMeta body,
         Event.writeCache ⟨headersGet r.headers "etag", headersGet r.headers "last-modified"⟩]) := by
    simp only [downloadMetadata, if_neg h304, if_neg hdata, hgetd]
    rfl
  have hgl : getMetadataFile fs (.resp r) = downloadMetadata fs (.resp r) := by
    rw [hdl]
    simp only [getMetadataFile, if_neg h304, if_neg hdata, hgetd]
    rfl
  refine ⟨hdl, hgl, ?_⟩
  rw [hdl]
  intro n m hm
  match n with
  | 0 => cases hm
  | 1 => simp_all
  | 2 => simp_all
  | 3 => simp_all
  | n + 4 => simp_all

/-- C5 witness: a 200 response with body and revalidation headers. -/
theorem c5_witness :
    (⟨200, some [1, 2], [("etag", "E"), ("last-modified", "L")]⟩ : Resp).data = some [1, 2] ∧
    ([1, 2] : List Nat) ≠ [] ∧ (200 : Nat) ≠ 304 ∧
    downloadMetadata ⟨false, none, none⟩
        (.resp ⟨200, some [1, 2], [("etag", "E"), ("last-modified", "L")]⟩) =
      (.ok true, ⟨true, some [1, 2], some ⟨some "E", some "L"⟩⟩,
        [Event.mkdir, Event.httpGet [], Event.writeMeta [1, 2],
         Event.writeCache ⟨some "E", some "L"⟩]) :=
  ⟨rfl, by decide, by decide,
    (c5_write_order ⟨false, none, none⟩
      ⟨200, some [1, 2], [("etag", "E"), ("last-modified", "L")]⟩ [1, 2]
      rfl (by decide) (by decide)).1⟩

/-- C1 counterexample: on a 200 response with an empty body,
`downloadMetadata` (src/index.ts) raises the error `'服务器响应数据为空'`
instead of returning the NotModified outcome — the claim as stated is false
for the refresh operation of `src/index.ts`. -/
theorem c1_counterexample :
    (downloadMetadata ⟨true, some [0x61], some ⟨some "E", some "L"⟩⟩
        (.resp ⟨200, some [], []⟩)).1 = .error "服务器响应数据为空" ∧
    ∀ b : Bool, (downloadMetadata ⟨true, some [0x61], some ⟨some "E", some "L"⟩⟩
        (.resp ⟨200, some [], []⟩)).1 ≠ .ok b := by
  refine ⟨rfl, ?_⟩
  intro b h
  cases h

/-- C1 (amended): on a 2xx response with an empty (or absent) body neither
implementation writes the metadata file or the descriptor file; the older
`getMetadataFile` returns the NotModified outcome (`false`), but
`downloadMetadata` of `src/index.ts` raises `'服务器响应数据为空'` instead of
returning NotModified. -/
theorem c1_empty_body (fs : FS) (r : Resp)
    (h2xx : 200 ≤ r.status ∧ r.status < 300)
    (hempty : r.data = none ∨ r.data = some []) :
    (downloadMetadata fs (.resp r)).1 = .error "服务器响应数据为空" ∧
    (downloadMetadata fs (.resp r)).2.1.metadataFile = fs.metadataFile ∧
    (downloadMetadata fs (.resp r)).2.1.cacheFile = fs.cacheFile ∧
    (∀ b, Event.writeMeta b ∉ (downloadMetadata fs (.resp r)).2.2) ∧
    (∀ m, Event.writeCache m ∉ (downloadMetadata fs (.resp r)).2.2) ∧
    (getMetadataFile fs (.resp r)).1 = .ok false ∧
    (getMetadataFile fs (.resp r)).2.1.metadataFile = fs.metadataFile ∧
    (getMetadataFile fs (.resp r)).2.1.cacheFile = fs.cacheFile ∧
    (∀ b, Event.writeMeta b ∉ (getMetadataFile fs (.resp r)).2.2) ∧
    (∀ m, Event.writeCache m ∉ (getMetadataFile fs (.resp r)).2.2) := by
  have h304 : r.status ≠ 304 := by omega
  have hdl : downloadMetadata fs (.resp r) =
      (.error "服务器响应数据为空", { fs with dirExists := true },
        [Event.mkdir, Event.httpGet (buildCondHeaders (fs.cacheFile.getD ⟨none, none⟩))]) := by
    simp only [downloadMetadata, if_neg h304, if_pos hempty]
  have hgl : getMetadataFile fs (.resp r) =
      (.ok false, { fs with dirExists := true },
        [Event.mkdir, Event.httpGet (buildCondHeaders (fs.cacheFile.getD ⟨none, none⟩))]) := by
    simp only [getMetadataFile, if_neg h304, if_pos hempty]
  rw [hdl, hgl]
  refine ⟨rfl, rfl, rfl, ?_, ?_, rfl, rfl, rfl, ?_, ?_⟩ <;> simp

/-- C1 (amended) witness: a 204-style empty 2xx response. -/
theorem c1_witness :
    (200 ≤ 200 ∧ (200 : Nat) < 300) ∧
    ((some [] : Option (List Nat)) = none ∨ (some [] : Option (List Nat)) = some []) ∧
    (downloadMetadata ⟨true, some [9], none⟩ (.resp ⟨200, some [], []⟩)).1
      = .error "服务器响应数据为空" ∧
    (getMetadataFile ⟨true, some [9], none⟩ (.resp ⟨200, some [], []⟩)).1 = .ok false :=
  have h := c1_empty_body ⟨true, some [9], none⟩ ⟨200, some [], []⟩
    (by decide) (Or.inr rfl)
  ⟨by decide, Or.inr rfl, h.1, h.2.2.2.2.2.1⟩

/-- C3: when the metadata file is present, `loadMetadata` (src/index.ts)
parses it straight into the store and performs no network request (and no
other event): its result is fully determined by the parse outcome, the
fetch outcome is never consulted, and the event trace of a successful load
is empty. -/
theorem c3_warm_start (parse : List Nat → Except String EmojiMetadata)
    (fs : FS) (store : Option EmojiMetadata) (fetch : FetchOutcome) (bytes : List Nat)
    (hf : fs.metadataFile = some bytes) :
    loadMetadata parse fs store fetch =
      (match parse bytes with
       | .ok metadata => .ok (fs, some metadata, ([] : List Event), false)
       | .error e => .error ("元数据加载失败: " ++ e)) ∧
    (∀ fs2 st2 evs pend, loadMetadata parse fs store fetch = .ok (fs2, st2, evs, pend) →
      ∀ hd, Event.httpGet hd ∉ evs) := by
  have hl : loadMetadata parse fs store fetch =
      (match parse bytes with
       | .ok metadata => .ok (fs, some metadata, ([] : List Event), false)
       | .error e => .error ("元数据加载失败: " ++ e)) := by
    rcases hp : parse bytes with e | metadata <;>
      simp [loadMetadata, hf, hp, setEmojiMetadata]
  refine ⟨hl, ?_⟩
  intro fs2 st2 evs pend heq hd hmem
  rw [hl] at heq
  rcases hp : parse bytes with e | metadata <;> rw [hp] at heq
  · cases heq
  · cases heq
    cases hmem

/-- C3 witness: a warm start with a parseable file; the fetch outcome is a
timeout, which is irrelevant because no request is issued. -/
theorem c3_witness :
    (⟨true, some [0x7b], none⟩ : FS).metadataFile = some [0x7b] ∧
    loadMetadata (fun _ => .ok demoMeta) ⟨true, some [0x7b], none⟩ none .timeout
      = .ok (⟨true, some [0x7b], none⟩, some demoMeta, [], false) :=
  ⟨rfl, (c3_warm_start (fun _ => .ok demoMeta) ⟨true, some [0x7b], none⟩ none
      .timeout [0x7b] rfl).1⟩

/-- C2: the cold-start bootstrap does NOT leave the store loaded.  When the
metadata file is absent and the download succeeds, `loadMetadata`
(src/index.ts line 130) reinvokes itself without `await`, so the bootstrap
promise resolves with the deferred reload still pending (final component
`true`) and the store still `none`; a query at that point raises
`'元数据未加载'` (NotLoaded), contradicting the claim that after apply
completes no query can raise NotLoaded. -/
theorem c2_cold_start_not_loaded :
    loadMetadata (fun _ => .ok demoMeta) ⟨false, none, none⟩ none
        (.resp ⟨200, some [0x7b], []⟩)
      = .ok (⟨true, some [0x7b], some ⟨none, none⟩⟩, none,
          [Event.mkdir, Event.httpGet [], Event.writeMeta [0x7b],
           Event.writeCache ⟨none, none⟩], true) ∧
    getEmojiData none "1f602" = .error "元数据未加载" :=
  ⟨rfl, rfl⟩

/-- C7: `getEmojiData` and `getSupportedEmoji` raise the NotLoaded error
`'元数据未加载'` exactly when no `setEmojiMetadata` has ever run; after any
sequence of loads, neither raises. -/
theorem c7_queries_throw_iff_never_loaded :
    ∀ (ms : List EmojiMetadata) (cp : String),
      isErr (getEmojiData (runSets ms) cp) = ms.isEmpty ∧
      isErr (getSupportedEmoji (runSets ms)) = ms.isEmpty ∧
      getEmojiData (runSets []) cp = .error "元数据未加载" ∧
      getSupportedEmoji (runSets []) = .error "元数据未加载" := by
  have key : ∀ (l : List EmojiMetadata) (m : EmojiMetadata),
      ∃ m2, List.foldl setEmojiMetadata (some m) l = some m2 := by
    intro l
    induction l with
    | nil => intro m; exact ⟨m, rfl⟩
    | cons a l2 ih => intro m; simpa [setEmojiMetadata] using ih a
  intro ms cp
  cases ms with
  | nil => exact ⟨rfl, rfl, rfl, rfl⟩
  | cons a l =>
    obtain ⟨m2, hm⟩ := key l a
    refine ⟨?_, ?_, rfl, rfl⟩ <;>
      simp [runSets, setEmojiMetadata, hm, getEmojiData, getSupportedEmoji, isErr]

/-- C9: whenever the trimmed argument does not consist of exactly two code
points (0, 1, or 3+), the command action returns one of the two plain usage
messages, without consulting the store at all (the result is identical for
every store state, in particular the not-loaded one, so no store query or
NotLoaded failure can occur). -/
theorem c9_wrong_count_usage (store : Option EmojiMetadata) (s : JSString)
    (h : (collectCodePointsJS (jsTrim s)).length ≠ 2) :
    (emojiAction store (some s) = .text usageEmptyMsg ∨
     emojiAction store (some s) = .text usageCountMsg) ∧
    emojiAction store (some s) = emojiAction none (some s) := by
  by_cases hs : s = []
  · subst hs
    exact ⟨Or.inl rfl, rfl⟩
  · have hall : ∀ st : Option EmojiMetadata,
        emojiAction st (some s) = .text usageCountMsg := by
      intro st
      simp only [emojiAction, if_neg hs]
      rcases hc : collectCodePointsJS (jsTrim s) with _ | ⟨a, _ | ⟨b, _ | ⟨c, rest⟩⟩⟩
      · rfl
      · rfl
      · rw [hc] at h
        simp at h
      · rfl
    exact ⟨Or.inr (hall store), (hall store).trans (hall none).symm⟩

/-- C9 witness: a single-character input against a loaded store. -/
theorem c9_witness :
    (collectCodePointsJS (jsTrim [0x61])).length ≠ 2 ∧
    (emojiAction (some demoMeta) (some [0x61]) = .text usageEmptyMsg ∨
     emojiAction (some demoMeta) (some [0x61]) = .text usageCountMsg) :=
  ⟨by decide, (c9_wrong_count_usage (some demoMeta) [0x61] (by decide)).1⟩

/-- C8: on a two-character lookup that finds a non-empty combinations list,
the action returns the image of the first combination whose `isLatest` is
true (`List.find?`), falling back to the first element of the list, and the
image reference is that combination's `gStaticUrl`. -/
theorem c8_latest_selection (meta : EmojiMetadata) (s : JSString) (a b : Nat)
    (hs : s ≠ [])
    (harr : collectCodePointsJS (jsTrim s) = [a, b])
    (c0 : Combination) (rest : List Combination)
    (hcomb : (lookupAssoc meta.data (getEmojiCodepoint (utf16Encode a))).bind
        (fun d => lookupAssoc d.combinations (getEmojiCodepoint (utf16Encode b)))
        = some (c0 :: rest)) :
    emojiAction (some meta) (some s) =
      .image ((((c0 :: rest).find? (fun c => c.isLatest)).getD c0).gStaticUrl) := by
  simp only [emojiAction, if_neg hs]
  rw [harr]
  simp only [getEmojiData]
  rw [hcomb]

/-- C8 witness: 😂🐶 against `demoMeta`, whose combination list has the
latest combination in second position — the selected image is the second
one's `gStaticUrl`, exercising the find-first-latest rule. -/
theorem c8_witness :
    ([0xD83D, 0xDE02, 0xD83D, 0xDC36] : JSString) ≠ [] ∧
    collectCodePointsJS (jsTrim [0xD83D, 0xDE02, 0xD83D, 0xDC36]) = [0x1F602, 0x1F436] ∧
    (lookupAssoc demoMeta.data (getEmojiCodepoint (utf16Encode 0x1F602))).bind
        (fun d => lookupAssoc d.combinations (getEmojiCodepoint (utf16Encode 0x1F436)))
      = some [⟨"https://gstatic/a.png", false⟩, ⟨"https://gstatic/b.png", true⟩] ∧
    emojiAction (some demoMeta) (some [0xD83D, 0xDE02, 0xD83D, 0xDC36])
      = .image "https://gstatic/b.png" :=
  ⟨by decide, by decide, by decide,
    c8_latest_selection demoMeta [0xD83D, 0xDE02, 0xD83D, 0xDC36] 0x1F602 0x1F436
      (by decide) (by decide) ⟨"https://gstatic/a.png", false⟩
      [⟨"https://gstatic/b.png", true⟩] (by decide)⟩

end Emojis
